import Mathlib

/-!
Verification of the RepoLens analysis/retrieval core against its
natural-language specification.

The development shallowly embeds the Python sources:
  * `app/services/chunking.py`   — `ChunkingService` (structural + generic chunking)
  * `app/services/qa_engine.py`  — `QAEngine` (retrieval + answer synthesis)
  * `app/tasks/analysis.py`      — `analyze_repository_task` (pipeline orchestration)
  * `app/api/repositories.py`    — re-analysis dispatch (`update_repository`)

Pure functions become Lean functions; the database is explicit state
(lists of rows); external effects (git clone, LLM call, CPython parser,
embedding model) are injected as parameters so theorems quantify over
their outcomes.
-/

set_option maxRecDepth 4000

namespace RepoLens

/-- Intermediate representation of a parsed code chunk:
`CodeChunkData` from `app/services/chunking.py`. -/
structure CodeChunkData where
  file_path : String
  chunk_text : String
  chunk_type : String
  line_start : Nat
  line_end : Nat
  language : String
deriving DecidableEq

/-- Constant `ChunkingService.CHUNK_SIZE_LINES`: fallback chunk size for generic splitting. -/
def CHUNK_SIZE_LINES : Nat := 50

/-- Python whitespace characters stripped by `str.strip()` (ASCII range). -/
def pyIsSpace (c : Char) : Bool :=
  c = ' ' || c = '\t' || c = '\n' || c = '\r' || c = '\x0b' || c = '\x0c'

/-- Truthiness test `if text.strip():` from the generic splitter:
`text.strip()` is falsy exactly when every character of `text` is whitespace. -/
def pyStripIsEmpty (s : String) : Bool :=
  s.toList.all pyIsSpace

/-- Helper for `pySplitLines`: split a character list at each newline,
keeping empty pieces, exactly as Python `str.split("\n")` does. -/
def splitLinesAux : List Char → List Char → List (List Char)
  | [], acc => [acc.reverse]
  | c :: rest, acc =>
    if c = '\n' then acc.reverse :: splitLinesAux rest []
    else splitLinesAux rest (c :: acc)

/-- Python `content.split("\n")` from `_extract_generic_chunks`:
splits on every newline and keeps empty pieces, so the result always has
(number of newlines + 1) elements; in particular `"".split("\n") = [""]`. -/
def pySplitLines (content : String) : List String :=
  (splitLinesAux content.toList []).map fun cs => String.mk cs

/-- One window of `ChunkingService._extract_generic_chunks`, for window
start `i` (0-based line index): the body of the loop
`for i in range(0, len(lines), CHUNK_SIZE_LINES)`.  Returns `none` when
the window text is whitespace-only (the `if text.strip():` guard). -/
def genericWindow (relPath language : String) (lines : List String) (i : Nat) :
    Option CodeChunkData :=
  let block := (lines.drop i).take CHUNK_SIZE_LINES
  let text := String.intercalate "\n" block
  if pyStripIsEmpty text then none
  else some
    { file_path := relPath
      chunk_text := text
      chunk_type := "block"
      line_start := i + 1
      line_end := min (i + CHUNK_SIZE_LINES) lines.length
      language := language }

/-- The window start offsets visited by
`range(0, len(lines), CHUNK_SIZE_LINES)`: `0, N, 2N, …`, strictly below
`total`. -/
def windowStarts (total : Nat) : List Nat :=
  (List.range ((total + CHUNK_SIZE_LINES - 1) / CHUNK_SIZE_LINES)).map
    fun j => j * CHUNK_SIZE_LINES

/-- Model of `ChunkingService._extract_generic_chunks`: fixed-size line windows,
whitespace-only windows dropped, remaining windows tagged `block`. -/
def extractGenericChunks (relPath content language : String) : List CodeChunkData :=
  let lines := pySplitLines content
  (windowStarts lines.length).filterMap (genericWindow relPath language lines)

/-- Node kinds of the CPython AST that `_extract_python_chunks`
distinguishes: `ast.FunctionDef`, `ast.AsyncFunctionDef`, `ast.ClassDef`,
and everything else (`Module`, statements, expressions, …). -/
inductive PyNodeKind where
  | functionDef
  | asyncFunctionDef
  | classDef
  | other
deriving DecidableEq

/-- A CPython syntax tree as far as the chunker observes it: node kind,
1-based `lineno`, optional `end_lineno`, the text that
`ast.get_source_segment` returns for the node (`none` when location
information is missing), and the child nodes (`ast.iter_child_nodes`). -/
inductive PyAst where
  | node (kind : PyNodeKind) (lineno : Nat) (endLineno : Option Nat)
      (segment : Option String) (children : List PyAst)

/-- Kind of an AST node. -/
def PyAst.kind : PyAst → PyNodeKind
  | .node k _ _ _ _ => k

/-- The `lineno` attribute of an AST node. -/
def PyAst.lineno : PyAst → Nat
  | .node _ l _ _ _ => l

/-- The `end_lineno` attribute of an AST node. -/
def PyAst.endLineno : PyAst → Option Nat
  | .node _ _ e _ _ => e

/-- What `ast.get_source_segment(content, node)` returns for the node. -/
def PyAst.segment : PyAst → Option String
  | .node _ _ _ s _ => s

/-- The children visited by `ast.iter_child_nodes(node)`. -/
def PyAst.children : PyAst → List PyAst
  | .node _ _ _ _ cs => cs

/-- Size measure used to justify termination of the breadth-first walk. -/
def PyAst.size : PyAst → Nat
  | .node _ _ _ _ cs => 1 + (cs.attach.map fun c => PyAst.size c.1).sum
decreasing_by
  simp_wf
  have := List.sizeOf_lt_of_mem c.2
  omega

/-- Total size of a worklist of trees. -/
def sizeList (ts : List PyAst) : Nat :=
  (ts.map PyAst.size).sum

theorem PyAst.size_node (k : PyNodeKind) (l : Nat) (e : Option Nat)
    (s : Option String) (cs : List PyAst) :
    PyAst.size (.node k l e s cs) = 1 + sizeList cs := by
  have h : PyAst.size (.node k l e s cs) =
      1 + (cs.attach.map fun c => PyAst.size c.1).sum := by
    rw [PyAst.size.eq_def]
  rw [h, List.attach_map_val]
  rfl

theorem sizeList_append (a b : List PyAst) :
    sizeList (a ++ b) = sizeList a + sizeList b := by
  simp [sizeList]

theorem sizeList_cons (t : PyAst) (q : List PyAst) :
    sizeList (t :: q) = PyAst.size t + sizeList q := by
  simp [sizeList]

theorem sizeList_children_lt (t : PyAst) : sizeList t.children < PyAst.size t := by
  obtain ⟨k, l, e, s, cs⟩ := t
  rw [PyAst.size_node]
  simp [PyAst.children]

/-- Model of `ast.walk(tree)` generalised to a worklist: breadth-first
traversal using a queue, yielding each node before its descendants,
exactly as the CPython `ast.walk` (a `deque` popped from the left and
extended with the children of each node). -/
def walkBFS : List PyAst → List PyAst
  | [] => []
  | t :: q => t :: walkBFS (q ++ t.children)
termination_by l => sizeList l
decreasing_by
  simp only [sizeList_append, sizeList_cons]
  have := sizeList_children_lt t
  omega

/-- All nodes of one tree, root first (a depth-first enumeration used as
the reference set of nodes; the breadth-first walk is a permutation of it). -/
def PyAst.allNodes : PyAst → List PyAst
  | .node k l e s cs =>
    .node k l e s cs :: (cs.attach.map fun c => PyAst.allNodes c.1).flatten
decreasing_by
  simp_wf
  have := List.sizeOf_lt_of_mem c.2
  omega

/-- All nodes of a forest. -/
def allNodesList (ts : List PyAst) : List PyAst :=
  (ts.map PyAst.allNodes).flatten

theorem PyAst.allNodes_node (k : PyNodeKind) (l : Nat) (e : Option Nat)
    (s : Option String) (cs : List PyAst) :
    PyAst.allNodes (.node k l e s cs) = .node k l e s cs :: allNodesList cs := by
  have h : PyAst.allNodes (.node k l e s cs) =
      .node k l e s cs :: (cs.attach.map fun c => PyAst.allNodes c.1).flatten := by
    rw [PyAst.allNodes.eq_def]
  rw [h, List.attach_map_val]
  rfl

theorem PyAst.allNodes_eq (t : PyAst) :
    t.allNodes = t :: allNodesList t.children := by
  obtain ⟨k, l, e, s, cs⟩ := t
  rw [PyAst.allNodes_node]
  rfl

theorem allNodesList_append (a b : List PyAst) :
    allNodesList (a ++ b) = allNodesList a ++ allNodesList b := by
  simp [allNodesList]

theorem allNodesList_cons (t : PyAst) (q : List PyAst) :
    allNodesList (t :: q) = t.allNodes ++ allNodesList q := by
  simp [allNodesList]

/-- The breadth-first walk enumerates exactly the nodes of the forest
(in a different order). -/
theorem walkBFS_perm (q : List PyAst) :
    List.Perm (walkBFS q) (allNodesList q) := by
  generalize hn : sizeList q = n
  induction n using Nat.strong_induction_on generalizing q with
  | _ n ih =>
    match q with
    | [] => simp [walkBFS, allNodesList]
    | t :: q =>
      subst hn
      have hlt : sizeList (q ++ t.children) < sizeList (t :: q) := by
        simp only [sizeList_append, sizeList_cons]
        have := sizeList_children_lt t
        omega
      have hrec := ih (sizeList (q ++ t.children)) hlt (q ++ t.children) rfl
      rw [allNodesList_append] at hrec
      have h1 : List.Perm (walkBFS (t :: q))
          (t :: (allNodesList q ++ allNodesList t.children)) := by
        simp only [walkBFS]
        exact List.Perm.cons t hrec
      have h2 : List.Perm (t :: (allNodesList q ++ allNodesList t.children))
          (allNodesList (t :: q)) := by
        rw [allNodesList_cons, PyAst.allNodes_eq, List.cons_append]
        exact List.Perm.cons t List.perm_append_comm
      exact h1.trans h2

/-- The `isinstance` dispatch of `_extract_python_chunks`: function-like
declarations are tagged `function`, class declarations `class`, every
other node is skipped (`continue`). -/
def declKind : PyNodeKind → Option String
  | .functionDef => some "function"
  | .asyncFunctionDef => some "function"
  | .classDef => some "class"
  | .other => none

/-- Python `node.end_lineno or node.lineno`: `or` falls through on the
falsy values `None` and `0`. -/
def pyOrLineno (e : Option Nat) (lineno : Nat) : Nat :=
  match e with
  | none => lineno
  | some v => if v = 0 then lineno else v

/-- The loop body of `_extract_python_chunks` for one walked node:
skip non-declarations, skip nodes whose source segment is `None` or empty
(the `if source:` truthiness guard), otherwise build the chunk. -/
def nodeChunk (relPath : String) (n : PyAst) : Option CodeChunkData :=
  match declKind n.kind with
  | none => none
  | some ty =>
    match n.segment with
    | none => none
    | some s =>
      if s = "" then none
      else some
        { file_path := relPath
          chunk_text := s
          chunk_type := ty
          line_start := n.lineno
          line_end := pyOrLineno n.endLineno n.lineno
          language := "python" }

/-- Model of `ChunkingService._extract_python_chunks`: `parsed = none` models
`ast.parse` raising `SyntaxError` (generic fallback); otherwise one chunk
per function/class node found by `ast.walk`, falling back to the generic
strategy when no chunks were produced. -/
def extractPythonChunks (relPath content : String) (parsed : Option PyAst) :
    List CodeChunkData :=
  match parsed with
  | none => extractGenericChunks relPath content "python"
  | some tree =>
    let chunks := (walkBFS [tree]).filterMap (nodeChunk relPath)
    if chunks.isEmpty then extractGenericChunks relPath content "python"
    else chunks

/-- Table `ChunkingService.EXTENSION_LANG_MAP`. -/
def EXTENSION_LANG_MAP : List (String × String) :=
  [(".py", "python"), (".js", "javascript"), (".ts", "typescript"),
   (".jsx", "javascript"), (".tsx", "typescript"), (".java", "java"),
   (".cpp", "cpp"), (".c", "c"), (".h", "c"), (".hpp", "cpp"),
   (".go", "go"), (".rs", "rust"), (".rb", "ruby"), (".php", "php"),
   (".swift", "swift"), (".kt", "kotlin"), (".scala", "scala"),
   (".cs", "csharp")]

/-- Model of `ChunkingService.chunk_file`: `readResult = none` models `_read`
returning `None` (unreadable file, logged and skipped); the language is
looked up from the extension with default `"unknown"`; Python files go
through the structural extractor (with the CPython parser injected as
`pyParse`, `none` modelling `SyntaxError`), all others through the
generic splitter. -/
def chunkFile (readResult : Option String) (suffix relPath : String)
    (pyParse : String → Option PyAst) : List CodeChunkData :=
  match readResult with
  | none => []
  | some content =>
    let language := (EXTENSION_LANG_MAP.lookup suffix).getD "unknown"
    if language = "python" then extractPythonChunks relPath content (pyParse content)
    else extractGenericChunks relPath content language

/-- Number of function-like and class-like declarations in a tree. -/
def declCount (t : PyAst) : Nat :=
  t.allNodes.countP fun n => (declKind n.kind).isSome

/-- Parser guarantee: on a tree produced by `ast.parse` from real source,
`ast.get_source_segment` returns a non-empty string for every
function/class declaration. -/
def segOK (t : PyAst) : Prop :=
  ∀ n ∈ t.allNodes, (declKind n.kind).isSome = true →
    ∃ s, n.segment = some s ∧ s ≠ ""

/-- Parser guarantee: `lineno ≤ end_lineno` whenever the latter is a
positive line number, hence `lineno ≤ (end_lineno or lineno)`. -/
def lineWF (t : PyAst) : Prop :=
  ∀ n ∈ t.allNodes, n.lineno ≤ pyOrLineno n.endLineno n.lineno

theorem length_filterMap_eq_countP {α β : Type} (f : α → Option β) (l : List α) :
    (l.filterMap f).length = l.countP fun a => (f a).isSome := by
  induction l with
  | nil => rfl
  | cons a l ih =>
    cases h : f a <;>
      simp [List.filterMap_cons, h, List.countP_cons, ih]

theorem allNodesList_singleton (t : PyAst) : allNodesList [t] = t.allNodes := by
  simp [allNodesList]

/-- Inversion of `nodeChunk`. -/
theorem nodeChunk_eq_some {relPath : String} {n : PyAst} {c : CodeChunkData}
    (h : nodeChunk relPath n = some c) :
    declKind n.kind = some c.chunk_type ∧ n.segment = some c.chunk_text ∧
    c.chunk_text ≠ "" ∧ c.file_path = relPath ∧ c.line_start = n.lineno ∧
    c.line_end = pyOrLineno n.endLineno n.lineno ∧ c.language = "python" := by
  unfold nodeChunk at h
  cases hk : declKind n.kind with
  | none => rw [hk] at h; exact absurd h (by simp)
  | some ty =>
    rw [hk] at h
    cases hs : n.segment with
    | none => rw [hs] at h; exact absurd h (by simp)
    | some s =>
      rw [hs] at h
      by_cases hne : s = ""
      · simp [hne] at h
      · simp only [if_neg hne, Option.some.injEq] at h
        subst h
        simp [hk, hs, hne]

theorem nodeChunk_isSome_of {relPath : String} {n : PyAst}
    (h : (nodeChunk relPath n).isSome = true) :
    (declKind n.kind).isSome = true := by
  unfold nodeChunk at h
  cases hk : declKind n.kind with
  | none => rw [hk] at h; simp at h
  | some ty => simp

/-- Under the parser guarantee, the walk produces exactly one chunk per
function/class declaration of the tree. -/
theorem walk_filterMap_length (relPath : String) (t : PyAst) (hseg : segOK t) :
    ((walkBFS [t]).filterMap (nodeChunk relPath)).length = declCount t := by
  rw [length_filterMap_eq_countP, (walkBFS_perm [t]).countP_eq,
    allNodesList_singleton]
  unfold declCount
  apply List.countP_congr
  intro n hn
  cases hk : declKind n.kind with
  | none => simp [nodeChunk, hk]
  | some ty =>
    obtain ⟨s, hs, hne⟩ := hseg n hn (by simp [hk])
    simp [nodeChunk, hk, hs, hne]

/-- Without any parser guarantee, chunks still come only from
declarations: a tree with no declarations produces no structural chunks. -/
theorem walk_filterMap_nil (relPath : String) (t : PyAst)
    (h0 : declCount t = 0) :
    (walkBFS [t]).filterMap (nodeChunk relPath) = [] := by
  have hlen : ((walkBFS [t]).filterMap (nodeChunk relPath)).length = 0 := by
    rw [length_filterMap_eq_countP, (walkBFS_perm [t]).countP_eq,
      allNodesList_singleton]
    have hle : (t.allNodes.countP fun n => (nodeChunk relPath n).isSome) ≤
        t.allNodes.countP fun n => (declKind n.kind).isSome :=
      List.countP_mono_left fun n _ h => nodeChunk_isSome_of h
    unfold declCount at h0
    omega
  exact List.length_eq_zero.mp hlen

/-- Membership in the structural chunk list comes from a declaration node
of the tree. -/
theorem mem_walk_filterMap {relPath : String} {t : PyAst} {c : CodeChunkData}
    (h : c ∈ (walkBFS [t]).filterMap (nodeChunk relPath)) :
    ∃ n ∈ t.allNodes, nodeChunk relPath n = some c := by
  obtain ⟨n, hn, hc⟩ := List.mem_filterMap.mp h
  exact ⟨n, by
    have := (walkBFS_perm [t]).mem_iff.mp hn
    rwa [allNodesList_singleton] at this, hc⟩

/-- Membership in the window starts of the generic splitter: exactly the
multiples `j * N` that lie strictly below the line count, matching
`range(0, len(lines), N)`. -/
theorem mem_windowStarts {total i : Nat} :
    i ∈ windowStarts total ↔
      ∃ j, i = j * CHUNK_SIZE_LINES ∧ j * CHUNK_SIZE_LINES < total := by
  simp only [windowStarts, List.mem_map, List.mem_range, CHUNK_SIZE_LINES]
  constructor
  · rintro ⟨j, hj, rfl⟩
    exact ⟨j, rfl, by omega⟩
  · rintro ⟨j, rfl, hj⟩
    exact ⟨j, by omega, rfl⟩

/-- Shape of any chunk produced by one generic window. -/
theorem genericWindow_eq_some {relPath language : String} {lines : List String}
    {i : Nat} {c : CodeChunkData}
    (h : genericWindow relPath language lines i = some c) :
    c.file_path = relPath ∧
    c.chunk_text = String.intercalate "\n" ((lines.drop i).take CHUNK_SIZE_LINES) ∧
    c.chunk_type = "block" ∧
    c.line_start = i + 1 ∧
    c.line_end = min (i + CHUNK_SIZE_LINES) lines.length ∧
    c.language = language ∧
    pyStripIsEmpty (String.intercalate "\n" ((lines.drop i).take CHUNK_SIZE_LINES)) = false := by
  unfold genericWindow at h
  by_cases hb : pyStripIsEmpty (String.intercalate "\n" ((lines.drop i).take CHUNK_SIZE_LINES))
  · simp [hb] at h
  · simp [hb] at h
    subst h
    simp [hb]

/-- The window starts are spaced at least one full window apart. -/
theorem windowStarts_pairwise (total : Nat) :
    (windowStarts total).Pairwise (fun a b => a + CHUNK_SIZE_LINES ≤ b) := by
  unfold windowStarts
  rw [List.pairwise_map]
  exact (List.pairwise_lt_range _).imp (by intro a b h; simp [CHUNK_SIZE_LINES]; omega)

/--
C1: generic chunking with window size 50 produces chunks in file order,
non-overlapping, with `line_start = j*N+1` and
`line_end = min ((j+1)*N) totalLines` for window index `j`; the windows
tile `[1, totalLines]`; a window is omitted exactly when its text is
whitespace-only; every produced chunk is tagged `block`; and a 100-line
non-structural file yields exactly the two chunks `[1,50]` and `[51,100]`.
-/
theorem generic_chunking_tiles_file (relPath content language : String) :
    (∀ c ∈ extractGenericChunks relPath content language, c.chunk_type = "block") ∧
    (∀ c ∈ extractGenericChunks relPath content language,
      ∃ j, j * CHUNK_SIZE_LINES < (pySplitLines content).length ∧
        c.line_start = j * CHUNK_SIZE_LINES + 1 ∧
        c.line_end = min ((j + 1) * CHUNK_SIZE_LINES) (pySplitLines content).length) ∧
    (extractGenericChunks relPath content language).Pairwise
      (fun a b => a.line_end < b.line_start) ∧
    (∀ L, 1 ≤ L → L ≤ (pySplitLines content).length →
      ∃ j, j * CHUNK_SIZE_LINES < (pySplitLines content).length ∧
        j * CHUNK_SIZE_LINES + 1 ≤ L ∧
        L ≤ min ((j + 1) * CHUNK_SIZE_LINES) (pySplitLines content).length) ∧
    (∀ j, j * CHUNK_SIZE_LINES < (pySplitLines content).length →
      ((∃ c ∈ extractGenericChunks relPath content language,
          c.line_start = j * CHUNK_SIZE_LINES + 1) ↔
        pyStripIsEmpty (String.intercalate "\n"
          (((pySplitLines content).drop (j * CHUNK_SIZE_LINES)).take CHUNK_SIZE_LINES)) =
          false)) ∧
    (extractGenericChunks "file.txt" (String.intercalate "\n" (List.replicate 100 "x"))
        "unknown").map (fun c => (c.line_start, c.line_end, c.chunk_type)) =
      [(1, 50, "block"), (51, 100, "block")] := by
  refine ⟨?_, ?_, ?_, ?_, ?_, by decide⟩
  · intro c hc
    obtain ⟨i, _, hw⟩ := List.mem_filterMap.mp hc
    exact (genericWindow_eq_some hw).2.2.1
  · intro c hc
    obtain ⟨i, hi, hw⟩ := List.mem_filterMap.mp hc
    obtain ⟨j, rfl, hlt⟩ := mem_windowStarts.mp hi
    obtain ⟨_, _, _, hs, he, _, _⟩ := genericWindow_eq_some hw
    exact ⟨j, hlt, hs, by rw [he]; ring_nf⟩
  · unfold extractGenericChunks
    refine List.pairwise_filterMap.mpr ?_
    refine ((windowStarts_pairwise (pySplitLines content).length).imp ?_)
    intro a b hab c hc d hd
    obtain ⟨_, _, _, _, he, _, _⟩ := genericWindow_eq_some hc
    obtain ⟨_, _, _, hs, _, _, _⟩ := genericWindow_eq_some hd
    rw [he, hs]
    have := min_le_left (a + CHUNK_SIZE_LINES) (pySplitLines content).length
    omega
  · intro L hL1 hL2
    refine ⟨(L - 1) / CHUNK_SIZE_LINES, ?_, ?_, ?_⟩ <;>
      · simp only [CHUNK_SIZE_LINES] at *
        omega
  · intro j hj
    constructor
    · rintro ⟨c, hc, hstart⟩
      obtain ⟨i, hi, hw⟩ := List.mem_filterMap.mp hc
      obtain ⟨j2, rfl, _⟩ := mem_windowStarts.mp hi
      obtain ⟨_, _, _, hs, _, _, hblank⟩ := genericWindow_eq_some hw
      have : j2 = j := by
        rw [hs] at hstart
        simp only [CHUNK_SIZE_LINES] at *
        omega
      subst this
      exact hblank
    · intro hblank
      have hmem : j * CHUNK_SIZE_LINES ∈ windowStarts (pySplitLines content).length :=
        mem_windowStarts.mpr ⟨j, rfl, hj⟩
      refine ⟨{ file_path := relPath
                chunk_text := String.intercalate "\n"
                  (((pySplitLines content).drop (j * CHUNK_SIZE_LINES)).take CHUNK_SIZE_LINES)
                chunk_type := "block"
                line_start := j * CHUNK_SIZE_LINES + 1
                line_end := min (j * CHUNK_SIZE_LINES + CHUNK_SIZE_LINES)
                  (pySplitLines content).length
                language := language }, ?_, rfl⟩
      exact List.mem_filterMap.mpr ⟨j * CHUNK_SIZE_LINES, hmem, by
        unfold genericWindow
        simp [hblank]⟩

end RepoLens

namespace RepoLens

/-- repository `total_lines` aggregate computed in step 6 of
`analyze_repository_task`: `sum(c.line_end - c.line_start + 1 for c in all_chunks)`. -/
def totalLinesAgg (cs : List CodeChunkData) : Nat :=
  (cs.map fun c => c.line_end - c.line_start + 1).sum

/-- Every generic chunk has a valid line range. -/
theorem generic_line_start_le_line_end (relPath content language : String) :
    ∀ c ∈ extractGenericChunks relPath content language,
      c.line_start ≤ c.line_end := by
  intro c hc
  obtain ⟨i, hi, hw⟩ := List.mem_filterMap.mp hc
  obtain ⟨j, rfl, hlt⟩ := mem_windowStarts.mp hi
  obtain ⟨_, _, _, hs, he, _, _⟩ := genericWindow_eq_some hw
  rw [hs, he]
  simp only [CHUNK_SIZE_LINES] at hlt ⊢
  omega

/-- A zero-byte file yields no generic chunks: its single empty line is a
whitespace-only window and is dropped. -/
theorem extractGenericChunks_empty_content (relPath language : String) :
    extractGenericChunks relPath "" language = [] := by
  unfold extractGenericChunks
  have h1 : pySplitLines "" = [""] := rfl
  rw [h1]
  show List.filterMap (genericWindow relPath language [""]) (windowStarts 1) = []
  have h2 : windowStarts 1 = [0] := rfl
  have h3 : genericWindow relPath language [""] 0 = none := by
    unfold genericWindow
    simp
    decide
  rw [h2]
  simp [h3]

/-- AST of `def f(self):` + body, as CPython parses line 2-3 of
`exampleNestedSource`. -/
def funcNodeEx : PyAst :=
  .node .functionDef 2 (some 3) (some "def f(self):\n    pass") []

/-- AST of the class declaration spanning lines 1-3 of
`exampleNestedSource`, with the method as nested child. -/
def classNodeEx : PyAst :=
  .node .classDef 1 (some 3) (some "class A:\n  def f(self):\n    pass") [funcNodeEx]

/-- The `Module` root node CPython produces for `exampleNestedSource`
(`Module` has no location attributes; they are never read for it because
it is not a declaration). -/
def moduleEx : PyAst := .node .other 1 (some 3) none [classNodeEx]

/-- A three-line Python source file: a class with one method. -/
def exampleNestedSource : String := "class A:\n  def f(self):\n    pass"

theorem walkBFS_moduleEx : walkBFS [moduleEx] = [moduleEx, classNodeEx, funcNodeEx] := by
  simp [walkBFS, moduleEx, classNodeEx, funcNodeEx, PyAst.children]

theorem allNodes_moduleEx :
    moduleEx.allNodes = [moduleEx, classNodeEx, funcNodeEx] := by
  simp [moduleEx, classNodeEx, funcNodeEx, PyAst.allNodes_node, allNodesList]

theorem segOK_moduleEx : segOK moduleEx := by
  unfold segOK
  rw [allNodes_moduleEx]
  intro n hn
  simp only [List.mem_cons, List.not_mem_nil, or_false] at hn
  rcases hn with rfl | rfl | rfl
  · intro h
    exact absurd h (by decide)
  · intro h
    exact ⟨"class A:\n  def f(self):\n    pass", rfl, by decide⟩
  · intro h
    exact ⟨"def f(self):\n    pass", rfl, by decide⟩

theorem declCount_moduleEx : declCount moduleEx = 2 := by
  rw [declCount, allNodes_moduleEx]
  decide

/-- Unfolding lemma for the structural branch of `extractPythonChunks`. -/
theorem extractPythonChunks_some (relPath content : String) (tree : PyAst) :
    extractPythonChunks relPath content (some tree) =
      if ((walkBFS [tree]).filterMap (nodeChunk relPath)).isEmpty then
        extractGenericChunks relPath content "python"
      else (walkBFS [tree]).filterMap (nodeChunk relPath) := rfl

theorem extractPython_moduleEx_eval :
    extractPythonChunks "a.py" exampleNestedSource (some moduleEx) =
      [{ file_path := "a.py", chunk_text := "class A:\n  def f(self):\n    pass",
         chunk_type := "class", line_start := 1, line_end := 3, language := "python" },
       { file_path := "a.py", chunk_text := "def f(self):\n    pass",
         chunk_type := "function", line_start := 2, line_end := 3,
         language := "python" }] := by
  rw [extractPythonChunks_some, walkBFS_moduleEx]
  simp [nodeChunk, declKind, moduleEx, classNodeEx, funcNodeEx, PyAst.kind,
    PyAst.segment, PyAst.lineno, PyAst.endLineno, pyOrLineno]

end RepoLens

namespace RepoLens

/--
C6: every chunk produced by the Chunking Engine — structural or generic,
for any readable or unreadable input file — satisfies
`line_start ≤ line_end`, assuming the CPython parser guarantee that a
`lineno` of a node never exceeds its positive `end_lineno`.
-/
theorem chunk_line_start_le_line_end
    (readResult : Option String) (suffix relPath : String)
    (pyParse : String → Option PyAst)
    (hparse : ∀ s t, pyParse s = some t → lineWF t) :
    ∀ c ∈ chunkFile readResult suffix relPath pyParse,
      c.line_start ≤ c.line_end := by
  intro c hc
  cases readResult with
  | none => simp [chunkFile] at hc
  | some content =>
    simp only [chunkFile] at hc
    by_cases hlang : ((EXTENSION_LANG_MAP.lookup suffix).getD "unknown") = "python"
    · rw [if_pos hlang] at hc
      cases hp : pyParse content with
      | none =>
        rw [hp] at hc
        exact generic_line_start_le_line_end relPath content "python" c hc
      | some tree =>
        rw [hp, extractPythonChunks_some] at hc
        by_cases hE : ((walkBFS [tree]).filterMap (nodeChunk relPath)).isEmpty
        · rw [if_pos hE] at hc
          exact generic_line_start_le_line_end relPath content "python" c hc
        · rw [if_neg hE] at hc
          obtain ⟨n, hn, hnc⟩ := mem_walk_filterMap hc
          obtain ⟨_, _, _, _, hs, he, _⟩ := nodeChunk_eq_some hnc
          rw [hs, he]
          exact hparse content tree hp n hn
    · rw [if_neg hlang] at hc
      exact generic_line_start_le_line_end relPath content _ c hc

/-- Witness for C6 at a concrete non-structural two-line file. -/
theorem chunk_line_start_le_line_end_witness :
    ({ file_path := "a.txt", chunk_text := "a\nb", chunk_type := "block",
       line_start := 1, line_end := 2, language := "unknown" } : CodeChunkData).line_start ≤
      ({ file_path := "a.txt", chunk_text := "a\nb", chunk_type := "block",
         line_start := 1, line_end := 2, language := "unknown" } : CodeChunkData).line_end :=
  chunk_line_start_le_line_end (some "a\nb") ".txt" "a.txt" (fun _ => none)
    (by intro s t h; cases h) _ (by decide)

/--
C7: `chunk_file` is total.  An unreadable file (`_read` returns `None`)
yields the empty chunk list, and a zero-byte file yields the empty chunk
list rather than one empty chunk — for every extension, including the
structural language, given the CPython guarantee that parsing the empty
source yields a tree without declarations.
-/
theorem chunk_file_empty_and_unreadable
    (suffix relPath : String) (pyParse : String → Option PyAst) :
    chunkFile none suffix relPath pyParse = [] ∧
    ((∀ t, pyParse "" = some t → declCount t = 0) →
      chunkFile (some "") suffix relPath pyParse = []) := by
  refine ⟨rfl, ?_⟩
  intro hp
  simp only [chunkFile]
  by_cases hlang : ((EXTENSION_LANG_MAP.lookup suffix).getD "unknown") = "python"
  · rw [if_pos hlang]
    cases hpr : pyParse "" with
    | none => exact extractGenericChunks_empty_content relPath "python"
    | some t =>
      rw [extractPythonChunks_some, walk_filterMap_nil relPath t (hp t hpr)]
      simp [extractGenericChunks_empty_content]
  · rw [if_neg hlang]
    exact extractGenericChunks_empty_content relPath _

/-- Witness for C7: a Python file, unreadable and zero-byte cases. -/
theorem chunk_file_empty_and_unreadable_witness :
    chunkFile none ".py" "x.py" (fun _ => none) = [] ∧
    chunkFile (some "") ".py" "x.py" (fun _ => none) = [] :=
  ⟨(chunk_file_empty_and_unreadable ".py" "x.py" (fun _ => none)).1,
    (chunk_file_empty_and_unreadable ".py" "x.py" (fun _ => none)).2
      (by intro t h; cases h)⟩

/--
C8: Python structural chunking emits one chunk per function-like and
class-like declaration, spanning the exact source line range of the
declaration and
tagged `function` or `class`; on a parse failure (`SyntaxError`) or when
the parse yields zero declarations, the file is chunked with the generic
strategy instead.
-/
theorem python_structural_chunking (relPath content : String) :
    extractPythonChunks relPath content none =
      extractGenericChunks relPath content "python" ∧
    (∀ tree : PyAst, declCount tree = 0 →
      extractPythonChunks relPath content (some tree) =
        extractGenericChunks relPath content "python") ∧
    (∀ tree : PyAst, segOK tree → 0 < declCount tree →
      (extractPythonChunks relPath content (some tree)).length = declCount tree ∧
      ∀ c ∈ extractPythonChunks relPath content (some tree),
        ∃ n ∈ tree.allNodes, declKind n.kind = some c.chunk_type ∧
          n.segment = some c.chunk_text ∧ c.line_start = n.lineno ∧
          c.line_end = pyOrLineno n.endLineno n.lineno) := by
  refine ⟨rfl, ?_, ?_⟩
  · intro tree h0
    rw [extractPythonChunks_some, walk_filterMap_nil relPath tree h0]
    simp
  · intro tree hseg hpos
    have hlen := walk_filterMap_length relPath tree hseg
    have hne : ((walkBFS [tree]).filterMap (nodeChunk relPath)).isEmpty = false := by
      cases h : ((walkBFS [tree]).filterMap (nodeChunk relPath)).isEmpty
      · rfl
      · rw [List.isEmpty_iff.mp h] at hlen
        simp only [List.length_nil] at hlen
        omega
    constructor
    · rw [extractPythonChunks_some, hne]
      simpa using hlen
    · intro c hc
      rw [extractPythonChunks_some, hne] at hc
      simp only [Bool.false_eq_true, if_false] at hc
      obtain ⟨n, hn, hnc⟩ := mem_walk_filterMap hc
      obtain ⟨hk, hs, _, _, hstart, hend, _⟩ := nodeChunk_eq_some hnc
      exact ⟨n, hn, hk, hs, hstart, hend⟩

/-- Witness for C8 on the concrete class-plus-method module. -/
theorem python_structural_chunking_witness :
    (extractPythonChunks "a.py" exampleNestedSource (some moduleEx)).length =
      declCount moduleEx :=
  ((python_structural_chunking "a.py" exampleNestedSource).2.2 moduleEx
    segOK_moduleEx (by rw [declCount_moduleEx]; omega)).1

/-- Any declaration node of the tree with a non-empty source segment
contributes its chunk to the structural output. -/
theorem nodeChunk_mem_extract (relPath content : String) (tree n : PyAst)
    (c : CodeChunkData) (hn : n ∈ tree.allNodes)
    (hc : nodeChunk relPath n = some c) :
    c ∈ extractPythonChunks relPath content (some tree) := by
  have hmem : c ∈ (walkBFS [tree]).filterMap (nodeChunk relPath) := by
    refine List.mem_filterMap.mpr ⟨n, ?_, hc⟩
    rw [(walkBFS_perm [tree]).mem_iff, allNodesList_singleton]
    exact hn
  have hne2 : ((walkBFS [tree]).filterMap (nodeChunk relPath)).isEmpty = false := by
    cases h : ((walkBFS [tree]).filterMap (nodeChunk relPath)).isEmpty
    · rfl
    · rw [List.isEmpty_iff.mp h] at hmem
      cases hmem
  rw [extractPythonChunks_some, hne2]
  simpa using hmem

/--
C10: structural chunking emits a chunk for an enclosing declaration and
separate chunks for each nested declaration (every declaration node of
the tree with a non-empty source segment contributes its own chunk), so
chunk line ranges of one file may overlap; on the concrete class-with-
method example the two chunks span [1,3] and [2,3] and the `total_lines`
aggregate is 5, exceeding the actual 3 lines of the file.
-/
theorem nested_declarations_counted_twice (relPath content : String) :
    (∀ (tree n : PyAst) (ty s : String), n ∈ tree.allNodes →
      declKind n.kind = some ty → n.segment = some s → s ≠ "" →
      ({ file_path := relPath, chunk_text := s, chunk_type := ty,
         line_start := n.lineno, line_end := pyOrLineno n.endLineno n.lineno,
         language := "python" } : CodeChunkData) ∈
        extractPythonChunks relPath content (some tree)) ∧
    (extractPythonChunks "a.py" exampleNestedSource (some moduleEx)).map
        (fun c => (c.chunk_type, c.line_start, c.line_end)) =
      [("class", 1, 3), ("function", 2, 3)] ∧
    totalLinesAgg (extractPythonChunks "a.py" exampleNestedSource (some moduleEx)) = 5 ∧
    (pySplitLines exampleNestedSource).length = 3 := by
  refine ⟨?_, ?_, ?_, by decide⟩
  · intro tree n ty s hn hk hs hne
    refine nodeChunk_mem_extract relPath content tree n _ hn ?_
    simp [nodeChunk, hk, hs, hne]
  · rw [extractPython_moduleEx_eval]
    rfl
  · rw [extractPython_moduleEx_eval]
    rfl

/-- Witness for C10: the nested method of the concrete example yields its
own chunk alongside the enclosing class chunk. -/
theorem nested_declarations_counted_twice_witness :
    ({ file_path := "a.py", chunk_text := "def f(self):\n    pass",
       chunk_type := "function", line_start := 2, line_end := 3,
       language := "python" } : CodeChunkData) ∈
      extractPythonChunks "a.py" exampleNestedSource (some moduleEx) :=
  (nested_declarations_counted_twice "a.py" exampleNestedSource).1
    moduleEx funcNodeEx "function" "def f(self):\n    pass"
    (by rw [allNodes_moduleEx]; simp)
    (by decide) rfl (by decide)

end RepoLens

namespace RepoLens

/-- A row of the `code_chunks` table (`app/models/code_chunk.py`):
`embedding` is nullable until embedded. -/
structure ChunkRow where
  id : Nat
  repository_id : Nat
  file_path : String
  chunk_text : String
  chunk_type : String
  line_start : Nat
  line_end : Nat
  language : String
  embedding : Option (List ℚ)
deriving DecidableEq

/-- One row of the result set of `QAEngine._retrieve_chunks`, as built by
its row-to-dict comprehension. -/
structure RetrievedChunk where
  id : Nat
  file_path : String
  chunk_text : String
  chunk_type : String
  line_start : Nat
  line_end : Nat
  language : String
  similarity : ℚ
deriving DecidableEq

/-- The `WHERE repository_id = :repo_id AND embedding IS NOT NULL` filter. -/
def eligibleRow (repoId : Nat) (r : ChunkRow) : Bool :=
  r.repository_id == repoId && r.embedding.isSome

/-- The sort key `embedding <=> :embedding::vector` of a row (`dist` is
the pgvector cosine-distance operator, injected as a parameter). -/
def rowDistance (dist : List ℚ → List ℚ → ℚ) (q : List ℚ) (r : ChunkRow) : ℚ :=
  dist (r.embedding.getD []) q

/-- The `SELECT` list of `_retrieve_chunks`:
`similarity = 1 - (embedding <=> :embedding::vector)`. -/
def mkRetrieved (dist : List ℚ → List ℚ → ℚ) (q : List ℚ) (r : ChunkRow) :
    RetrievedChunk :=
  { id := r.id
    file_path := r.file_path
    chunk_text := r.chunk_text
    chunk_type := r.chunk_type
    line_start := r.line_start
    line_end := r.line_end
    language := r.language
    similarity := 1 - rowDistance dist q r }

/-- Model of `QAEngine._retrieve_chunks`: filter to the embedded
rows of the repository, `ORDER BY embedding <=> :embedding::vector`, `LIMIT :top_k`, and
map each row to the similarity dict.  The `db` list order models the
physical order in which the store scans the table; `ORDER BY` is a stable
sort on the distance key, reflecting that SQL leaves the relative order
of equal-key rows unspecified (it depends on the scan order, since the
query has no secondary sort key). -/
def retrieveChunks (dist : List ℚ → List ℚ → ℚ) (db : List ChunkRow)
    (repoId : Nat) (q : List ℚ) (topK : Nat) : List RetrievedChunk :=
  ((((db.filter (eligibleRow repoId)).mergeSort
      fun a b => decide (rowDistance dist q a ≤ rowDistance dist q b)).take
    topK).map (mkRetrieved dist q))

/-- Dot product of two rational vectors. -/
def dotQ : List ℚ → List ℚ → ℚ
  | a :: as, b :: bs => a * b + dotQ as bs
  | _, _ => 0

/-- Cosine distance of pgvector specialised to unit vectors, where it
equals `1 - dot product`. -/
def cosDistUnit (v w : List ℚ) : ℚ := 1 - dotQ v w

end RepoLens

namespace RepoLens

/--
C2 (amended): retrieval returns only rows of the requested repository
with a non-null embedding, each carrying `similarity = 1 - distance`;
results are ordered by non-increasing similarity; at most `k` rows are
returned and all eligible rows are returned when fewer than `k` exist;
an empty eligible set yields the empty list, not an error.  (The id
tie-break of the original claim is refuted separately.)
-/
theorem retrieve_chunks_spec (dist : List ℚ → List ℚ → ℚ) (db : List ChunkRow)
    (repoId : Nat) (q : List ℚ) (topK : Nat) :
    (∀ r ∈ retrieveChunks dist db repoId q topK,
      ∃ row ∈ db, eligibleRow repoId row = true ∧ r = mkRetrieved dist q row) ∧
    (retrieveChunks dist db repoId q topK).Pairwise
      (fun a b => b.similarity ≤ a.similarity) ∧
    (retrieveChunks dist db repoId q topK).length =
      min topK (db.countP (eligibleRow repoId)) ∧
    (db.countP (eligibleRow repoId) = 0 →
      retrieveChunks dist db repoId q topK = []) := by
  refine ⟨?_, ?_, ?_, ?_⟩
  · intro r hr
    obtain ⟨row, hrow, rfl⟩ := List.mem_map.mp hr
    have hmem : row ∈ (db.filter (eligibleRow repoId)).mergeSort
        (fun a b => decide (rowDistance dist q a ≤ rowDistance dist q b)) :=
      (List.take_sublist _ _).mem hrow
    have hmem2 := List.mem_mergeSort.mp hmem
    exact ⟨row, (List.mem_filter.mp hmem2).1, (List.mem_filter.mp hmem2).2, rfl⟩
  · have hsorted : ((db.filter (eligibleRow repoId)).mergeSort
        fun a b => decide (rowDistance dist q a ≤ rowDistance dist q b)).Pairwise
        (fun a b => decide (rowDistance dist q a ≤ rowDistance dist q b) = true) := by
      refine List.sorted_mergeSort ?_ ?_ (db.filter (eligibleRow repoId))
      · intro a b c hab hbc
        simp only [decide_eq_true_eq] at *
        exact le_trans hab hbc
      · intro a b
        simp only [Bool.or_eq_true, decide_eq_true_eq]
        exact le_total _ _
    rw [retrieveChunks, List.pairwise_map]
    refine (List.Pairwise.sublist (List.take_sublist _ _) hsorted).imp ?_
    intro a b h
    simp only [decide_eq_true_eq] at h
    exact sub_le_sub_left h 1
  · rw [retrieveChunks, List.length_map, List.length_take, List.length_mergeSort,
      ← List.countP_eq_length_filter]
  · intro h0
    have : db.filter (eligibleRow repoId) = [] := by
      have := List.countP_eq_length_filter (eligibleRow repoId) db
      rw [h0] at this
      exact List.length_eq_zero.mp this.symm
    rw [retrieveChunks, this]
    simp

/-- Witness for C2: an empty store yields the empty result. -/
theorem retrieve_chunks_spec_witness :
    retrieveChunks cosDistUnit [] 1 [1] 5 = [] :=
  (retrieve_chunks_spec cosDistUnit [] 1 [1] 5).2.2.2 rfl

/-- Two rows of repository 1 with identical embeddings, stored with the
higher id physically first (ids are not scan order in a vector index). -/
def tieRowHighId : ChunkRow :=
  { id := 2, repository_id := 1, file_path := "a.py", chunk_text := "x",
    chunk_type := "block", line_start := 1, line_end := 1,
    language := "python", embedding := some [1] }

/-- The equal-distance row with the lower id, scanned second. -/
def tieRowLowId : ChunkRow :=
  { id := 1, repository_id := 1, file_path := "b.py", chunk_text := "y",
    chunk_type := "block", line_start := 1, line_end := 1,
    language := "python", embedding := some [1] }

/--
C2 counterexample: the retrieval query has no secondary sort key, so two
equal-similarity rows come back in scan order; when the row with the
higher id is scanned first, the claimed deterministic
"ties broken by lower chunk id" ordering is violated.
-/
theorem retrieval_tie_break_counterexample :
    ¬ ((retrieveChunks cosDistUnit [tieRowHighId, tieRowLowId] 1 [1] 5).Pairwise
        fun a b => b.similarity < a.similarity ∨
          (b.similarity = a.similarity ∧ a.id < b.id)) := by
  have hfilter : [tieRowHighId, tieRowLowId].filter (eligibleRow 1) =
      [tieRowHighId, tieRowLowId] := by decide
  have hpair : List.Pairwise
      (fun a b => decide (rowDistance cosDistUnit [1] a ≤
        rowDistance cosDistUnit [1] b) = true)
      [tieRowHighId, tieRowLowId] := by
    refine List.pairwise_cons.mpr ⟨?_, List.pairwise_singleton _ _⟩
    intro b hb
    rw [List.mem_singleton] at hb
    subst hb
    simp [rowDistance, tieRowHighId, tieRowLowId]
  have heval : retrieveChunks cosDistUnit [tieRowHighId, tieRowLowId] 1 [1] 5 =
      [mkRetrieved cosDistUnit [1] tieRowHighId,
       mkRetrieved cosDistUnit [1] tieRowLowId] := by
    rw [retrieveChunks, hfilter, List.mergeSort_of_sorted hpair]
    rfl
  rw [heval]
  intro h
  have h12 := List.rel_of_pairwise_cons h (List.mem_singleton.mpr rfl)
  simp only [mkRetrieved, rowDistance, cosDistUnit, dotQ, tieRowHighId,
    tieRowLowId, Option.getD] at h12
  rcases h12 with hlt | ⟨_, hid⟩
  · exact absurd hlt (by norm_num)
  · exact absurd hid (by norm_num)

end RepoLens

namespace RepoLens

/-- One entry of the `sources` list built in `QAEngine.answer` step 5. -/
structure SourceRef where
  file : String
  line_start : Nat
  line_end : Nat
  relevance_score : ℚ
  snippet : String
deriving DecidableEq

/-- The dict returned by `QAEngine.answer`.  `answer = none` models the
`None` produced when `_generate_answer` failed; `error` is the
`"error"` key of the dict (the `degraded` flag of the spec).  The wall-clock
`processing_time_ms` field is not modelled. -/
structure AnswerResult where
  answer : Option String
  confidence_score : ℚ
  sources : List SourceRef
  model_used : String
  error : Bool
deriving DecidableEq

/-- Round to the nearest integer, ties to the even integer — the rounding
mode of the Python built-in `round` (modelled on exact rationals). -/
def roundHalfEven (q : ℚ) : ℤ :=
  if q - ⌊q⌋ < 1/2 then ⌊q⌋
  else if 1/2 < q - ⌊q⌋ then ⌊q⌋ + 1
  else if ⌊q⌋ % 2 = 0 then ⌊q⌋ else ⌊q⌋ + 1

/-- Python `round(x, 3)` on exact rationals. -/
def pyRound3 (q : ℚ) : ℚ := (roundHalfEven (q * 1000) : ℚ) / 1000

/-- Python `max` over a non-empty list (`max(...)` in `QAEngine.answer`);
the `[]` case is never reached where it is used. -/
def pyMax : List ℚ → ℚ
  | [] => 0
  | x :: xs => xs.foldl max x

/-- The fixed message returned when retrieval finds nothing. -/
def noRelevantCodeMsg : String :=
  "I couldn\x27t find relevant code in this repository to answer your question."

/-- One labeled section of the context block (`_build_context` loop body). -/
def buildContextPart (i : Nat) (c : RetrievedChunk) : String :=
  "--- Source " ++ toString i ++ ": " ++ c.file_path ++ " (lines " ++
    toString c.line_start ++ "-" ++ toString c.line_end ++ ") ---\n" ++
    c.chunk_text ++ "\n"

/-- Model of `QAEngine._build_context`: labeled sections in retrieval order,
numbered from 1, joined with a blank separator line. -/
def buildContext (chunks : List RetrievedChunk) : String :=
  String.intercalate "\n" ((chunks.enumFrom 1).map fun p => buildContextPart p.1 p.2)

/-- Model of `QAEngine._build_prompt`. -/
def buildPrompt (question context : String) : String :=
  "You are an expert code analyst. Answer the following question \n" ++
    "about a codebase using ONLY the provided source code context. \n" ++
    "Be specific, reference file names and line numbers when relevant.\n\n" ++
    "CONTEXT:\n" ++ context ++ "\n\nQUESTION: " ++ question ++ "\n\nANSWER:"

/-- The `sources` entry for one retrieved chunk (`QAEngine.answer` step 5):
relevance rounded to 3 decimals, snippet truncated to 200 characters. -/
def mkSource (c : RetrievedChunk) : SourceRef :=
  { file := c.file_path
    line_start := c.line_start
    line_end := c.line_end
    relevance_score := pyRound3 c.similarity
    snippet := c.chunk_text.take 200 }

/-- Model of `QAEngine.answer` after retrieval: `relevantChunks` is the retrieval
result, `gen` the generation backend (`_generate_answer`: `some text` on
HTTP success, `none` on connection failure or any other error), and
`llmModel` the configured `settings.LLM_MODEL`. -/
def answerFromRetrieved (relevantChunks : List RetrievedChunk)
    (gen : String → Option String) (llmModel question : String) : AnswerResult :=
  if relevantChunks.isEmpty then
    { answer := some noRelevantCodeMsg
      confidence_score := 0
      sources := []
      model_used := "none"
      error := false }
  else
    { answer := gen (buildPrompt question (buildContext relevantChunks))
      confidence_score := pyRound3 (pyMax (relevantChunks.map fun c => c.similarity))
      sources := relevantChunks.map mkSource
      model_used := llmModel
      error := (gen (buildPrompt question (buildContext relevantChunks))).isNone }

theorem foldl_max_mem (x : ℚ) (xs : List ℚ) :
    xs.foldl max x = x ∨ xs.foldl max x ∈ xs := by
  induction xs generalizing x with
  | nil => exact Or.inl rfl
  | cons y ys ih =>
    rcases ih (max x y) with h | h
    · rcases max_choice x y with hm | hm
      · exact Or.inl (by rw [List.foldl_cons, h, hm])
      · exact Or.inr (by rw [List.foldl_cons, h, hm]; exact List.mem_cons_self _ _)
    · exact Or.inr (by rw [List.foldl_cons]; exact List.mem_cons_of_mem _ h)

theorem foldl_max_le (x : ℚ) (xs : List ℚ) :
    x ≤ xs.foldl max x ∧ ∀ y ∈ xs, y ≤ xs.foldl max x := by
  induction xs generalizing x with
  | nil => exact ⟨le_refl x, by simp⟩
  | cons y ys ih =>
    obtain ⟨h1, h2⟩ := ih (max x y)
    refine ⟨le_trans (le_max_left x y) h1, ?_⟩
    intro z hz
    rcases List.mem_cons.mp hz with rfl | hz
    · exact le_trans (le_max_right x z) h1
    · exact h2 z hz

theorem pyMax_mem {l : List ℚ} (h : l ≠ []) : pyMax l ∈ l := by
  cases l with
  | nil => exact absurd rfl h
  | cons x xs =>
    rcases foldl_max_mem x xs with hm | hm
    · rw [pyMax, hm]; exact List.mem_cons_self _ _
    · rw [pyMax]; exact List.mem_cons_of_mem _ hm

theorem pyMax_ge {l : List ℚ} : ∀ x ∈ l, x ≤ pyMax l := by
  cases l with
  | nil => simp
  | cons x xs =>
    intro z hz
    rcases List.mem_cons.mp hz with rfl | hz
    · exact (foldl_max_le z xs).1
    · exact (foldl_max_le x xs).2 z hz

end RepoLens

namespace RepoLens

/--
C4: when retrieval returns no chunks, `answer` returns the fixed
"no relevant code found" message with confidence 0.0, empty sources,
`model_used = "none"` and `error = false` (the `degraded` flag of the spec),
and the result does not depend on the generation backend — the backend
is not consulted on this path.
-/
theorem answer_empty_retrieval_fixed_result
    (gen gen₂ : String → Option String) (llmModel llmModel₂ question : String) :
    answerFromRetrieved [] gen llmModel question =
      { answer := some noRelevantCodeMsg
        confidence_score := 0
        sources := []
        model_used := "none"
        error := false } ∧
    answerFromRetrieved [] gen llmModel question =
      answerFromRetrieved [] gen₂ llmModel₂ question :=
  ⟨rfl, rfl⟩

/--
C5: whenever retrieval returns at least one chunk, the confidence score
is the 3-decimal rounding of the maximum similarity among the retrieved
chunks — attained by one of them and an upper bound for all of them —
and it is the same whatever the generation backend returns (success,
error response, or unreachable).
-/
theorem confidence_is_max_similarity (chunks : List RetrievedChunk)
    (gen gen₂ : String → Option String) (llmModel llmModel₂ question : String)
    (hne : chunks ≠ []) :
    (∃ c ∈ chunks,
      (answerFromRetrieved chunks gen llmModel question).confidence_score =
        pyRound3 c.similarity ∧
      ∀ d ∈ chunks, d.similarity ≤ c.similarity) ∧
    (answerFromRetrieved chunks gen llmModel question).confidence_score =
      (answerFromRetrieved chunks gen₂ llmModel₂ question).confidence_score := by
  have hE : chunks.isEmpty = false := by
    cases h : chunks.isEmpty
    · rfl
    · exact absurd (List.isEmpty_iff.mp h) hne
  have hconf : (answerFromRetrieved chunks gen llmModel question).confidence_score =
      pyRound3 (pyMax (chunks.map fun c => c.similarity)) := by
    rw [answerFromRetrieved, hE]
    rfl
  have hconf₂ : (answerFromRetrieved chunks gen₂ llmModel₂ question).confidence_score =
      pyRound3 (pyMax (chunks.map fun c => c.similarity)) := by
    rw [answerFromRetrieved, hE]
    rfl
  refine ⟨?_, by rw [hconf, hconf₂]⟩
  have hmapne : chunks.map (fun c => c.similarity) ≠ [] := by
    intro h
    exact hne (List.map_eq_nil_iff.mp h)
  obtain ⟨c, hc, hcs⟩ := List.mem_map.mp (pyMax_mem hmapne)
  refine ⟨c, hc, by rw [hconf, hcs], ?_⟩
  intro d hd
  rw [hcs]
  exact pyMax_ge _ (List.mem_map.mpr ⟨d, hd, rfl⟩)

/-- A single retrieved chunk with similarity 1/2, for the C5 witness. -/
def witnessRetrievedChunk : RetrievedChunk :=
  { id := 1, file_path := "a.py", chunk_text := "x", chunk_type := "block",
    line_start := 1, line_end := 1, language := "python",
    similarity := (1 : ℚ)/2 }

/-- Witness for C5 with one retrieved chunk and an unreachable backend. -/
theorem confidence_is_max_similarity_witness :
    (∃ c ∈ [witnessRetrievedChunk],
      (answerFromRetrieved [witnessRetrievedChunk]
        (fun _ => none) "codellama" "what").confidence_score =
        pyRound3 c.similarity ∧
      ∀ d ∈ [witnessRetrievedChunk], d.similarity ≤ c.similarity) ∧
    (answerFromRetrieved [witnessRetrievedChunk]
      (fun _ => none) "codellama" "what").confidence_score =
    (answerFromRetrieved [witnessRetrievedChunk]
      (fun _ => some "answer") "codellama" "what").confidence_score :=
  confidence_is_max_similarity [witnessRetrievedChunk]
    (fun _ => none) (fun _ => some "answer")
    "codellama" "codellama" "what" (by simp)

end RepoLens

namespace RepoLens

/-- One discovered file as the pipeline sees it: the outcome of reading
it, its extension, and its repo-relative path. -/
structure FileInput where
  readResult : Option String
  suffix : String
  relPath : String
deriving DecidableEq

/-- A row of the `analysis_jobs` table as far as the task mutates it. -/
structure JobRec where
  status : String
  progress_percentage : Nat
  error_message : Option String
deriving DecidableEq

/-- The database state touched by `analyze_repository_task`, for one
repository: whether the repository row exists, its status and aggregate
stats, its jobs in creation order (the query
`ORDER BY created_at DESC LIMIT 1` picks the last element), and the
`code_chunks` rows. -/
structure TaskState where
  repoExists : Bool
  repoStatus : String
  totalFiles : Nat
  totalLines : Nat
  jobs : List JobRec
  chunkRows : List ChunkRow
deriving DecidableEq

/-- Update the most recently created job (the last element). -/
def markLastJob (f : JobRec → JobRec) : List JobRec → List JobRec
  | [] => []
  | [j] => [f j]
  | j :: rest => j :: markLastJob f rest

/-- Job update of the `except` branch: `status = "failed"`,
`error_message = str(exc)`. -/
def failJob (e : String) (j : JobRec) : JobRec :=
  { j with status := "failed", error_message := some e }

/-- A progress checkpoint (`job.progress_percentage = p; db.commit()`). -/
def setJobProgress (p : Nat) (j : JobRec) : JobRec :=
  { j with progress_percentage := p }

/-- Step 3 of the task: chunk every discovered file and accumulate
(`all_chunks.extend(chunks)`). -/
def taskChunks (files : List FileInput) (pyParse : String → Option PyAst) :
    List CodeChunkData :=
  files.flatMap fun f => chunkFile f.readResult f.suffix f.relPath pyParse

/-- Step 5 of the task: one `CodeChunk` row per `(chunk, embedding)` pair
of `zip(all_chunks, embeddings)`; serial primary keys are modelled as
insertion positions after the existing rows. -/
def newChunkRows (repoId startId : Nat) (chunks : List CodeChunkData)
    (embs : List (List ℚ)) : List ChunkRow :=
  ((chunks.zip embs).enum).map fun p =>
    { id := startId + p.1
      repository_id := repoId
      file_path := p.2.1.file_path
      chunk_text := p.2.1.chunk_text
      chunk_type := p.2.1.chunk_type
      line_start := p.2.1.line_start
      line_end := p.2.1.line_end
      language := p.2.1.language
      embedding := some p.2.2 }

/-- The `except` branch of the task: re-fetch the repository and mark it
`failed` if present, mark the most recent job for the repository `failed`
with the error message. -/
def failTask (st : TaskState) (e : String) : TaskState :=
  { st with
      repoStatus := if st.repoExists then "failed" else st.repoStatus
      jobs := markLastJob (failJob e) st.jobs }

/--
`analyze_repository_task` from `app/tasks/analysis.py`, for one
repository.  The fallible externals are injected: `cloneResult` is the
outcome of `IngestionService.clone_repository` (its `RuntimeError`
message on failure — `clone_dir` is assigned only on success, so the
`finally` block calls `IngestionService.cleanup` exactly when the clone
succeeded), and `embed` is `EmbeddingService.generate_embeddings_batch`.
Discovery and chunking are pure.  The returned triple is the final
database state, the outcome of the task (`Except.error` models the re-raised
exception observed by the dispatch layer), and whether cleanup ran on a
cloned directory.  The intermediate progress checkpoints 20/40 overwrite
the same job row and are collapsed into the pre-embedding value 60.
Note that no existing `code_chunks` rows are deleted anywhere in the
task: step 5 only adds rows.
-/
def analyzeRepositoryTask (st : TaskState) (repoId : Nat)
    (cloneResult : Except String Unit) (files : List FileInput)
    (pyParse : String → Option PyAst)
    (embed : List String → Except String (List (List ℚ))) :
    TaskState × Except String Unit × Bool :=
  if st.repoExists = false then
    (failTask st "Repository not found", Except.error "Repository not found", false)
  else
    let st1 : TaskState :=
      { st with
          repoStatus := "analyzing"
          jobs := st.jobs ++ [{ status := "processing", progress_percentage := 10,
                                error_message := none }] }
    match cloneResult with
    | .error e => (failTask st1 e, Except.error e, false)
    | .ok _ =>
      let st2 : TaskState := { st1 with jobs := markLastJob (setJobProgress 60) st1.jobs }
      match embed ((taskChunks files pyParse).map fun c => c.chunk_text) with
      | .error e => (failTask st2 e, Except.error e, true)
      | .ok embs =>
        let st3 : TaskState :=
          { st2 with
              repoStatus := "ready"
              totalFiles := files.length
              totalLines := totalLinesAgg (taskChunks files pyParse)
              jobs := markLastJob
                (fun j => { j with status := "completed", progress_percentage := 100 })
                st2.jobs
              chunkRows := st2.chunkRows ++
                newChunkRows repoId st2.chunkRows.length (taskChunks files pyParse) embs }
        (st3, Except.ok (), true)

/-- Number of stored chunk rows belonging to a repository. -/
def chunkCount (st : TaskState) (repoId : Nat) : Nat :=
  st.chunkRows.countP fun r => r.repository_id == repoId

theorem markLastJob_concat (f : JobRec → JobRec) (jobs : List JobRec) (j : JobRec) :
    markLastJob f (jobs ++ [j]) = jobs ++ [f j] := by
  induction jobs with
  | nil => rfl
  | cons a l ih =>
    cases l with
    | nil => rfl
    | cons b m =>
      show a :: markLastJob f ((b :: m) ++ [j]) = (a :: b :: m) ++ [f j]
      rw [ih]
      rfl

end RepoLens

namespace RepoLens

/--
C9: if the clone step or the embedding step of a pipeline run raises, the
task returns that error to the dispatch layer (re-raise), the repository
is marked `failed`, the most recent job for the repository is marked
`failed` carrying the error message, and the cloned working directory is
released exactly when a clone directory exists (when the clone itself
failed no directory was retained — `clone_dir` is still `None` — and
`clone_repository` already removed its partial directory); on success the
cleanup also runs and the run completes with repository `ready` and job
`completed`.
-/
theorem pipeline_failure_handling (st : TaskState) (repoId : Nat)
    (cloneResult : Except String Unit) (files : List FileInput)
    (pyParse : String → Option PyAst)
    (embed : List String → Except String (List (List ℚ)))
    (hrepo : st.repoExists = true) :
    (∀ e, cloneResult = Except.error e →
      (analyzeRepositoryTask st repoId cloneResult files pyParse embed).2.1 =
        Except.error e ∧
      (analyzeRepositoryTask st repoId cloneResult files pyParse embed).1.repoStatus =
        "failed" ∧
      (analyzeRepositoryTask st repoId cloneResult files pyParse embed).1.jobs.getLast? =
        some { status := "failed", progress_percentage := 10, error_message := some e } ∧
      (analyzeRepositoryTask st repoId cloneResult files pyParse embed).2.2 = false) ∧
    (∀ e, cloneResult = Except.ok () →
      embed ((taskChunks files pyParse).map fun c => c.chunk_text) = Except.error e →
      (analyzeRepositoryTask st repoId cloneResult files pyParse embed).2.1 =
        Except.error e ∧
      (analyzeRepositoryTask st repoId cloneResult files pyParse embed).1.repoStatus =
        "failed" ∧
      (analyzeRepositoryTask st repoId cloneResult files pyParse embed).1.jobs.getLast? =
        some { status := "failed", progress_percentage := 60, error_message := some e } ∧
      (analyzeRepositoryTask st repoId cloneResult files pyParse embed).2.2 = true) ∧
    (∀ embs, cloneResult = Except.ok () →
      embed ((taskChunks files pyParse).map fun c => c.chunk_text) = Except.ok embs →
      (analyzeRepositoryTask st repoId cloneResult files pyParse embed).2.1 =
        Except.ok () ∧
      (analyzeRepositoryTask st repoId cloneResult files pyParse embed).1.repoStatus =
        "ready" ∧
      (analyzeRepositoryTask st repoId cloneResult files pyParse embed).1.jobs.getLast? =
        some { status := "completed", progress_percentage := 100,
               error_message := none } ∧
      (analyzeRepositoryTask st repoId cloneResult files pyParse embed).2.2 = true) := by
  refine ⟨?_, ?_, ?_⟩
  · rintro e rfl
    simp [analyzeRepositoryTask, hrepo, failTask, failJob, markLastJob_concat,
      setJobProgress, List.getLast?_concat]
  · rintro e rfl hemb
    simp [analyzeRepositoryTask, hrepo, failTask, failJob, markLastJob_concat,
      setJobProgress, hemb, List.getLast?_concat]
  · rintro embs rfl hemb
    simp [analyzeRepositoryTask, hrepo, failTask, failJob, markLastJob_concat,
      setJobProgress, hemb, List.getLast?_concat]

/-- The state before a first analysis run: repository created `pending`,
no jobs, no chunks. -/
def initialTaskState : TaskState :=
  { repoExists := true, repoStatus := "pending", totalFiles := 0,
    totalLines := 0, jobs := [], chunkRows := [] }

/-- Witness for C9: a run whose clone step fails with message `boom`. -/
theorem pipeline_failure_handling_witness :
    (analyzeRepositoryTask initialTaskState 1 (Except.error "boom") []
        (fun _ => none) (fun _ => Except.ok [])).2.1 = Except.error "boom" ∧
    (analyzeRepositoryTask initialTaskState 1 (Except.error "boom") []
        (fun _ => none) (fun _ => Except.ok [])).1.repoStatus = "failed" ∧
    (analyzeRepositoryTask initialTaskState 1 (Except.error "boom") []
        (fun _ => none) (fun _ => Except.ok [])).1.jobs.getLast? =
      some { status := "failed", progress_percentage := 10,
             error_message := some "boom" } ∧
    (analyzeRepositoryTask initialTaskState 1 (Except.error "boom") []
        (fun _ => none) (fun _ => Except.ok [])).2.2 = false :=
  (pipeline_failure_handling initialTaskState 1 (Except.error "boom") []
    (fun _ => none) (fun _ => Except.ok []) rfl).1 "boom" rfl

end RepoLens

namespace RepoLens

/-- A two-line non-structural source file, unchanged between runs. -/
def unchangedFile : FileInput :=
  { readResult := some "line1\nline2", suffix := ".txt", relPath := "a.txt" }

/-- A deterministic embedding backend (constant unit-dimension vectors). -/
def embedConst : List String → Except String (List (List ℚ)) :=
  fun ts => Except.ok (ts.map fun _ => [1])

/-- The database after the first analysis run of the unchanged repository. -/
def reanalysisRun1 : TaskState :=
  (analyzeRepositoryTask initialTaskState 1 (Except.ok ()) [unchangedFile]
    (fun _ => none) embedConst).1

/-- The database after re-analysing the same, unchanged repository. -/
def reanalysisRun2 : TaskState :=
  (analyzeRepositoryTask reanalysisRun1 1 (Except.ok ()) [unchangedFile]
    (fun _ => none) embedConst).1

/--
C3 (code bug): the task never deletes the previously stored `CodeChunk`
rows — step 5 only inserts — and the re-analysis endpoint
(`update_repository`) only resets the status before queueing; so
re-running analysis on an unchanged repository doubles the stored chunk
count (1 chunk after the first run, 2 after the second) instead of
reproducing it, contradicting the claimed bulk-delete and idempotence.
-/
theorem reanalysis_accumulates_chunks :
    chunkCount reanalysisRun1 1 = 1 ∧
    reanalysisRun1.repoStatus = "ready" ∧
    chunkCount reanalysisRun2 1 = 2 ∧
    reanalysisRun2.repoStatus = "ready" := by
  decide

end RepoLens
